import Mathlib

/-!
Shallow embedding of the release-reconciliation engine of releaser-pleaser.

Sources embedded here:
  * `src/changelog.go` — changelog assembly (`NewChangelogEntry`), the markdown
    section block parser (`sectionParser`), and the GitHub forge adapter
    (`GitHub.LatestTag`, `GitHub.CommitsSince`, `GitHub.commitsSinceTag`,
    `GitHub.Changesets`, `GitHub.PullRequestForBranch`).
  * `src/unnamed/part_000` — the reconciliation orchestrator
    (`reconcileReleasePR`).

External collaborators (the go-github client, go-git, the goldmark block-parse
driver, the html/template renderer, and repository code not present under
`src/` such as `AnalyzeCommits`, `NextVersion`, `CloneRepo`) are modelled as
explicit parameters: the functions of this file are parametric in their
responses, so every theorem quantifies over the collaborator behaviour.

Machine integers: GitHub page numbers and pull-request numbers are
non-negative and far from any overflow boundary in all relevant runs, so they
are modelled as `Nat`.  Unbounded `for` loops of the Go source are modelled
with an explicit fuel parameter; a fuel-exhausted run returns `none`
(`Option`), which no theorem ever equates with a genuine result.
-/

/-! ## Core value types (spec §3; Go types in the `rp` package) -/

/-- Go `rp.Tag` — `{Hash, Name}`. -/
structure Tag where
  Hash : String
  Name : String
deriving DecidableEq

/-- Go `rp.Commit` — `{Hash, Message}`. -/
structure Commit where
  Hash : String
  Message : String
deriving DecidableEq

/-- Modelled from the spec: `rp.AnalyzedCommit` is produced by the
conventional-commit analyzer, whose file is not under `src/`.  Spec §3 gives
its fields `{Type, Scope, Breaking, Description, SourceCommit}`; only `Type`
is consumed by the code embedded here.  `Type` is a reserved word in Lean, so
the field is spelled `CommitType`. -/
structure AnalyzedCommit where
  CommitType : String
  Scope : String
  Breaking : Bool
  Description : String
  SourceCommit : Commit
deriving DecidableEq

/-- Go `rp.Changeset` (changelog.go:167-171). -/
structure Changeset where
  URL : String
  Identifier : String
  ChangelogEntries : List AnalyzedCommit
deriving DecidableEq

/-- Go `rp.ReleasePullRequest` — `{ID, Title, Description, Labels}`. -/
structure ReleasePullRequest where
  ID : Nat
  Title : String
  Description : String
  Labels : List String
deriving DecidableEq

/-- Modelled from the spec: `rp.ReleaseOverrides` (§3) — `{NextVersionType}`,
optional, defaulting to "no override"; its defining file is not under
`src/`. -/
structure ReleaseOverrides where
  NextVersionType : Option String
deriving DecidableEq

/-! ## go-github client model

The go-github response values consumed by `changelog.go` are embedded
structurally.  A `Resp` carries the pagination fields of
`github.Response` that the source reads (`NextPage`, `LastPage`); the
go-github convention is `LastPage = 0` when the `Link` header reports no
further pages. -/

/-- Pagination fields of `github.Response` read by the source. -/
structure Resp where
  NextPage : Nat
  LastPage : Nat
deriving DecidableEq

/-- A Go `error` returned by a go-github call.  `isErrorResponse` is true
when `errors.As(err, &ghErr)` with `ghErr : *github.ErrorResponse` would
succeed; `message` is then `ghErr.Message` (changelog.go:389-395). -/
structure GHError where
  isErrorResponse : Bool
  message : String
deriving DecidableEq

/-- Go type `github.RepositoryCommit`: the fields read are `GetSHA()` and
`GetCommit().GetMessage()` (changelog.go:264-268). -/
structure GHRepositoryCommit where
  SHA : String
  Message : String
deriving DecidableEq

/-- Go type `github.CommitsComparison`: fields read are `GetTotalCommits()` and
`Commits` (changelog.go:296-300). -/
structure GHComparison where
  TotalCommits : Nat
  Commits : List GHRepositoryCommit
deriving DecidableEq

/-- Go type `github.RepositoryTag`: fields read are `GetName()` and
`GetCommit().GetSHA()` (changelog.go:240-244). -/
structure GHTag where
  Name : String
  SHA : String
deriving DecidableEq

/-- A `github.PullRequest` with the fields read by changelog.go. -/
structure GHPullRequest where
  Number : Nat
  Title : String
  Body : String
  State : String
  HTMLURL : String
  MergeCommitSHA : String
  BaseLabel : String
  HeadLabel : String
  Labels : List String
deriving DecidableEq

/-- The GitHub API surface used by changelog.go, one function per endpoint,
each taking the page number requested and returning that page's items plus
the pagination response (or an error).  `ListTags(ctx, owner, repo, nil)`
requests the first page, so `LatestTag` below calls `listTagsPage 1`. -/
structure GitHubClient where
  listTagsPage : Nat → Except GHError (List GHTag × Resp)
  compareCommitsPage : String → String → Nat → Except GHError (GHComparison × Resp)
  listPRsWithCommitPage : String → Nat → Except GHError (List GHPullRequest × Resp)

/-- Go `rp.GitHubOptions` (changelog.go:435-443), restricted to the fields
read by the embedded functions. -/
structure GitHubOptions where
  Owner : String
  Repo : String
  BaseBranch : String

/-- Go `rp.GitHub` (changelog.go:204-209). -/
structure GitHub where
  options : GitHubOptions
  client : GitHubClient

/-- Go constant `GitHubPRStateOpen` (changelog.go:162). -/
def GitHubPRStateOpen : String := "open"

/-! ## GitHub.LatestTag (changelog.go:230-248) -/

/-- Method `GitHub.LatestTag`: lists tags (first page only — the source passes `nil`
options and comments "We only get the first page because the latest tag is
returned as the first item"), returns the first tag, or `none` when the list
is empty. -/
def GitHub.LatestTag (g : GitHub) : Except GHError (Option Tag) :=
  match g.client.listTagsPage 1 with
  | Except.error e => Except.error e
  | Except.ok (tags, _) =>
    match tags with
    | tag :: _ => Except.ok (some { Hash := tag.SHA, Name := tag.Name })
    | [] => Except.ok none

/-! ## GitHub.commitsSinceTag (changelog.go:274-310) -/

/-- The pagination loop inside `GitHub.commitsSinceTag` (changelog.go:282-307):
fetch `CompareCommits(base, head)` page by page, appending
`comparison.Commits`, breaking when `page == resp.LastPage || resp.LastPage
== 0`, else continuing at `resp.NextPage`.  `fuel` bounds the number of
iterations; exhaustion yields `none`. -/
def GitHub.commitsSinceTagLoop (g : GitHub) (base : String) :
    Nat → Nat → List GHRepositoryCommit →
    Option (Except GHError (List GHRepositoryCommit))
  | 0, _, _ => none
  | fuel + 1, page, acc =>
    match g.client.compareCommitsPage base g.options.BaseBranch page with
    | Except.error e => some (Except.error e)
    | Except.ok (comparison, resp) =>
      let acc2 := acc ++ comparison.Commits
      if page == resp.LastPage || resp.LastPage == 0 then
        some (Except.ok acc2)
      else
        GitHub.commitsSinceTagLoop g base fuel resp.NextPage acc2

/-- Method `GitHub.commitsSinceTag`: compares `tag.Hash` (base) with the configured
base branch (head), starting at page 1 with an empty accumulator. -/
def GitHub.commitsSinceTag (g : GitHub) (tag : Tag) (fuel : Nat) :
    Option (Except GHError (List GHRepositoryCommit)) :=
  GitHub.commitsSinceTagLoop g tag.Hash fuel 1 []

/-! ## GitHub.CommitsSince (changelog.go:250-272) -/

/-- Method `GitHub.CommitsSince`: with a tag, delegates to `commitsSinceTag` and maps
each `github.RepositoryCommit` to a `Commit`; with `tag == nil` it returns
`fmt.Errorf("not implemented")` (changelog.go:256). -/
def GitHub.CommitsSince (g : GitHub) (tag : Option Tag) (fuel : Nat) :
    Option (Except GHError (List Commit)) :=
  match tag with
  | some t =>
    match GitHub.commitsSinceTag g t fuel with
    | none => none
    | some (Except.error e) => some (Except.error e)
    | some (Except.ok rcs) =>
      some (Except.ok (rcs.map fun c => { Hash := c.SHA, Message := c.Message }))
  | none =>
    some (Except.error { isErrorResponse := false, message := "not implemented" })

/-! ## GitHub.Changesets (changelog.go:312-379) -/

/-- Log events emitted by `GitHub.Changesets` on its warning paths
(changelog.go:354 and changelog.go:365). -/
inductive ChangesetLog where
  | droppedNoPR (commitHash : String)
  | analyzeFailed (commitHash : String)
deriving DecidableEq

/-- The per-commit pagination loop inside `GitHub.Changesets`
(changelog.go:325-343): fetch `ListPullRequestsWithCommit(commit.Hash)` page
by page, appending the pull requests, with the same break condition as the
other loops. -/
def GitHub.assocPRsLoop (g : GitHub) (sha : String) :
    Nat → Nat → List GHPullRequest →
    Option (Except GHError (List GHPullRequest))
  | 0, _, _ => none
  | fuel + 1, page, acc =>
    match g.client.listPRsWithCommitPage sha page with
    | Except.error e => some (Except.error e)
    | Except.ok (prs, resp) =>
      let acc2 := acc ++ prs
      if page == resp.LastPage || resp.LastPage == 0 then
        some (Except.ok acc2)
      else
        GitHub.assocPRsLoop g sha fuel resp.NextPage acc2

/-- Method `GitHub.Changesets`: for each commit, paginate the associated pull
requests, take the first whose `GetMergeCommitSHA()` equals the commit hash
(changelog.go:346-352); with no such PR, log a warning and continue
(changelog.go:353-358); otherwise analyze the commit (`AnalyzeCommits`, a
collaborator passed as the `analyze` parameter since its file is not under
`src/`), logging and continuing on analysis failure (changelog.go:363-367),
and append a `Changeset` only when at least one changelog entry was produced
(changelog.go:369-375).  Returns the changesets together with the warning
log. -/
def GitHub.Changesets (g : GitHub)
    (analyze : List Commit → Except String (List AnalyzedCommit))
    (fuel : Nat) :
    List Commit → Option (Except GHError (List Changeset × List ChangesetLog))
  | [] => some (Except.ok ([], []))
  | commit :: rest =>
    match GitHub.assocPRsLoop g commit.Hash fuel 1 [] with
    | none => none
    | some (Except.error e) => some (Except.error e)
    | some (Except.ok associatedPRs) =>
      match associatedPRs.find? (fun pr => pr.MergeCommitSHA == commit.Hash) with
      | none =>
        match GitHub.Changesets g analyze fuel rest with
        | none => none
        | some (Except.error e) => some (Except.error e)
        | some (Except.ok (cs, logs)) =>
          some (Except.ok (cs, ChangesetLog.droppedNoPR commit.Hash :: logs))
      | some pullrequest =>
        match analyze [commit] with
        | Except.error _ =>
          match GitHub.Changesets g analyze fuel rest with
          | none => none
          | some (Except.error e) => some (Except.error e)
          | some (Except.ok (cs, logs)) =>
            some (Except.ok (cs, ChangesetLog.analyzeFailed commit.Hash :: logs))
        | Except.ok changelogEntries =>
          match GitHub.Changesets g analyze fuel rest with
          | none => none
          | some (Except.error e) => some (Except.error e)
          | some (Except.ok (cs, logs)) =>
            if changelogEntries.length > 0 then
              some (Except.ok
                ({ URL := pullrequest.HTMLURL,
                   Identifier := "#" ++ toString pullrequest.Number,
                   ChangelogEntries := changelogEntries } :: cs, logs))
            else
              some (Except.ok (cs, logs))

/-! ## GitHub.PullRequestForBranch (changelog.go:381-422) -/

/-- The pagination loop of `GitHub.PullRequestForBranch`: on an API error
that is a `github.ErrorResponse` with message exactly
`"No commit found for SHA: <branch>"`, return `(nil, nil)`
(changelog.go:389-397); otherwise propagate the error.  On success, return
the first PR of the page whose base label is the configured base branch,
whose head label is the branch, and whose state is open
(changelog.go:399-413); else advance pages with the usual break condition. -/
def GitHub.prForBranchLoop (g : GitHub) (branch : String) :
    Nat → Nat → Option (Except GHError (Option ReleasePullRequest))
  | 0, _ => none
  | fuel + 1, page =>
    match g.client.listPRsWithCommitPage branch page with
    | Except.error e =>
      if e.isErrorResponse && (e.message == "No commit found for SHA: " ++ branch) then
        some (Except.ok none)
      else
        some (Except.error e)
    | Except.ok (prs, resp) =>
      match prs.find? (fun pr =>
          pr.BaseLabel == g.options.BaseBranch
            && pr.HeadLabel == branch
            && pr.State == GitHubPRStateOpen) with
      | some pr =>
        some (Except.ok (some
          { ID := pr.Number, Title := pr.Title,
            Description := pr.Body, Labels := pr.Labels }))
      | none =>
        if page == resp.LastPage || resp.LastPage == 0 then
          some (Except.ok none)
        else
          GitHub.prForBranchLoop g branch fuel resp.NextPage

/-- Method `GitHub.PullRequestForBranch`, starting at page 1. -/
def GitHub.PullRequestForBranch (g : GitHub) (branch : String) (fuel : Nat) :
    Option (Except GHError (Option ReleasePullRequest)) :=
  GitHub.prForBranchLoop g branch fuel 1

/-! ## Standard paged responses

`mkPageResp` reproduces go-github's `Link`-header parsing for a listing with
`pages.length` pages: on a non-final page, `NextPage` is the following page
and `LastPage` the final one; on the final page (and for single-page
results) the header carries no `next`/`last` relation, so both fields are
zero. -/

/-- Pagination response of a standard paged listing with `n` pages, as seen
from page `page`. -/
def mkPageResp (n : Nat) (page : Nat) : Resp :=
  if page < n then { NextPage := page + 1, LastPage := n } else { NextPage := 0, LastPage := 0 }

/-- A standard paged listing endpoint built from its per-page item lists. -/
def pagedListEndpoint {α : Type} (pages : List (List α)) (page : Nat) :
    Except GHError (List α × Resp) :=
  Except.ok (pages.getD (page - 1) [], mkPageResp pages.length page)

/-- A standard paged `CompareCommits` endpoint built from its per-page commit
lists and a fixed `TotalCommits` field. -/
def pagedCompareEndpoint (total : Nat) (pages : List (List GHRepositoryCommit))
    (page : Nat) : Except GHError (GHComparison × Resp) :=
  Except.ok ({ TotalCommits := total, Commits := pages.getD (page - 1) [] },
    mkPageResp pages.length page)

/-! ## Markdown section block parser (src lines 59-146, package `extensions`)

The goldmark regular expressions `^<!-- section-start (.+) -->` and
`^<!-- section-end (.+) -->` are embedded directly: with `.` not matching a
newline and the capture group greedy, a line matches exactly when it starts
with the literal marker text and the remainder contains a later occurrence of
`" -->"` preceded by at least one character; the captured name is everything
up to the last such occurrence.  Lines are modelled without their trailing
newline, as goldmark's `PeekLine` yields one line at a time. -/

/-- Characters before the LAST occurrence of `sep` in the list, if any. -/
def lastSplitBefore (sep : List Char) : List Char → Option (List Char)
  | [] => none
  | c :: rest =>
    match lastSplitBefore sep rest with
    | some cap => some (c :: cap)
    | none => if List.isPrefixOf sep (c :: rest) then some [] else none

/-- Go call `regexp.FindSubmatch` for a marker pattern `^<marker>(.+) -->`: the greedy
capture of the group, or `none` when the line does not match. -/
def markerCapture (marker : String) (line : String) : Option String :=
  if List.isPrefixOf marker.data line.data then
    match lastSplitBefore (String.data " -->") (List.drop marker.data.length line.data) with
    | some cap => if cap = [] then none else some (String.mk cap)
    | none => none
  else none

/-- Submatch of `sectionStartRegex` (src line 73). -/
def sectionStartName (line : String) : Option String :=
  markerCapture "<!-- section-start " line

/-- Submatch of `sectionEndRegex` (src line 74). -/
def sectionEndName (line : String) : Option String :=
  markerCapture "<!-- section-end " line

/-- Node type `ast.Section` — the block node opened by a start marker, named by the
start marker's captured group. -/
structure Section where
  Name : String
deriving DecidableEq

/-- Result of `sectionParser.Continue` (src lines 96-109): whether the block
closes, paired with whether the current line was consumed
(`reader.AdvanceLine()`). -/
inductive SectionParserState where
  | close
  | continueChildren
deriving DecidableEq

/-- Method `sectionParser.Open` (src lines 85-94): a line matching the start regex
opens a `Section` named by the capture (the line is consumed); any other
line opens nothing. -/
def sectionParserOpen (line : String) : Option Section :=
  match sectionStartName line with
  | some name => some { Name := name }
  | none => none

/-- Method `sectionParser.Continue` (src lines 96-109): a line matching the end
regex whose captured name equals the node's name closes the block and is
consumed; every other line — including an end marker carrying a different
name — leaves the block open as nested content and is not consumed here. -/
def sectionParserContinue (n : Section) (line : String) :
    SectionParserState × Bool :=
  match sectionEndName line with
  | some name =>
    if name = n.Name then (SectionParserState.close, true)
    else (SectionParserState.continueChildren, false)
  | none => (SectionParserState.continueChildren, false)

/-- The goldmark block-parse driver for this block kind (external collaborator,
spec §1 scope note): feed lines to `sectionParserContinue` until it closes,
collecting the lines left to child parsing as the section body.  Returns the
body and the lines after the block. -/
def sectionBody (n : Section) : List String → List String × List String
  | [] => ([], [])
  | line :: rest =>
    match sectionParserContinue n line with
    | (SectionParserState.close, _) => ([], rest)
    | _ =>
      let (body, rem) := sectionBody n rest
      (line :: body, rem)

/-- Open a section block at the head line via `sectionParserOpen`, then run
`sectionBody` on the remaining lines. -/
def parseSectionBlock : List String → Option (Section × List String × List String)
  | [] => none
  | line :: rest =>
    match sectionParserOpen line with
    | some sec =>
      let (body, rem) := sectionBody sec rest
      some (sec, body, rem)
    | none => none

/-! ## Changelog assembly — NewChangelogEntry (changelog.go:30-58) -/

/-- The semantic fields handed to the changelog template (changelog.go:44-51).
The Go map keys `Prefix`/`Suffix` are spelled `PreText`/`SufText` here. -/
structure ChangelogData where
  Features : List AnalyzedCommit
  Fixes : List AnalyzedCommit
  Version : String
  VersionLink : String
  PreText : String
  SufText : String
deriving DecidableEq

/-- The grouping loop of `NewChangelogEntry` (changelog.go:31-41): a switch on
`commit.Type` appending to `features` or `fixes`, ignoring every other
type. -/
def changelogGroups (commits : List AnalyzedCommit) :
    List AnalyzedCommit × List AnalyzedCommit :=
  commits.foldl
    (fun acc commit =>
      if commit.CommitType == "feat" then (acc.1 ++ [commit], acc.2)
      else if commit.CommitType == "fix" then (acc.1, acc.2 ++ [commit])
      else acc)
    ([], [])

/-- Function `NewChangelogEntry` (changelog.go:30-58): group the commits, then execute
the process-wide changelog template on the semantic fields.  The template
renderer (html/template, parsed once at init) is an external collaborator
passed as `render`. -/
def NewChangelogEntry (render : ChangelogData → Except String String)
    (commits : List AnalyzedCommit)
    (version link preText sufText : String) : Except String String :=
  let groups := changelogGroups commits
  render { Features := groups.1, Fixes := groups.2, Version := version,
           VersionLink := link, PreText := preText, SufText := sufText }

/-! ## Reconciliation orchestrator — reconcileReleasePR (src/unnamed/part_000:109-212)

The orchestrator's collaborators (forge, go-git repository and worktree,
updaters, version calculator — the latter not under `src/`) are modelled as
an environment of fallible calls; the embedding threads their results exactly
as the source does and records each collaborator call in an action trace. -/

/-- One collaborator call made by `reconcileReleasePR`, in source order.
`upsertPullRequest` is the call §4.6 of the spec names for the final step;
it is included so that its absence from every trace is expressible. -/
inductive OrchAction where
  | prLookup (branch : String)
  | getOverrides
  | computeNextVersion
  | cloneRepo
  | getWorktree
  | deleteBranch (branch : String)
  | checkoutCreate (branch : String)
  | runUpdater (version : String)
  | renderChangelog
  | updateChangelogFile
  | commitWorktree (message : String)
  | push (branch : String)
  | upsertPullRequest
deriving DecidableEq

/-- A Go `error` returned by an orchestrator collaborator. -/
structure OrchErr where
  msg : String
deriving DecidableEq

/-- The collaborators and ambient inputs of `reconcileReleasePR`:
`baseBranch` is the `--branch` flag, `tag`/`changesets` the results of
`getChangesetsFromForge`, and each remaining field one collaborator call. -/
structure OrchEnv where
  baseBranch : String
  tag : Option Tag
  changesets : List Changeset
  pullRequestForBranch : String → Except OrchErr (Option ReleasePullRequest)
  getOverrides : ReleasePullRequest → Except OrchErr ReleaseOverrides
  nextVersion : Option Tag → List Changeset → Option String → Except OrchErr String
  cloneRepo : Except OrchErr Unit
  worktree : Except OrchErr Unit
  branchExists : String → Bool
  deleteBranch : String → Except OrchErr Unit
  checkoutCreate : String → Except OrchErr Unit
  runUpdater : String → Except OrchErr Unit
  newChangelogEntry : List Changeset → String → String → Except OrchErr String
  updateChangelogFile : String → Except OrchErr Unit
  commitWorktree : String → Except OrchErr String
  pushBranch : Except OrchErr Unit
  releaseURL : String → String

/-- Constant `RELEASER_PLEASER_BRANCH` (part_000:19) applied to the base branch. -/
def rpBranchName (baseBranch : String) : String :=
  "releaser-pleaser--branches--" ++ baseBranch

/-- The part of `reconcileReleasePR` (part_000:134-212) after the override
extraction, from the `rp.NextVersion` call to the final push: compute the
next version, clone, obtain the worktree, delete a leftover local
reconciliation branch, check out the branch anew, run the updaters, render
and write the changelog entry, commit with the deterministic message, and
force-push.  Any collaborator error is returned as-is; the source ends with
`// TODO Open PR` and reports success without any pull-request upsert call.
`t` is the action trace accumulated by the steps before this point. -/
def reconcileReleasePRCont (env : OrchEnv) (releaseOverrides : ReleaseOverrides)
    (t : List OrchAction) : Except OrchErr Unit × List OrchAction :=
  let rpBranch := rpBranchName env.baseBranch
  let t2 := t ++ [OrchAction.computeNextVersion]
  match env.nextVersion env.tag env.changesets releaseOverrides.NextVersionType with
      | Except.error e => (Except.error e, t2)
      | Except.ok nextVersion =>
        let t3 := t2 ++ [OrchAction.cloneRepo]
        match env.cloneRepo with
        | Except.error e => (Except.error e, t3)
        | Except.ok _ =>
          let t4 := t3 ++ [OrchAction.getWorktree]
          match env.worktree with
          | Except.error e => (Except.error e, t4)
          | Except.ok _ =>
            let t5 := if env.branchExists rpBranch then
                t4 ++ [OrchAction.deleteBranch rpBranch]
              else t4
            match if env.branchExists rpBranch then env.deleteBranch rpBranch
                else Except.ok () with
            | Except.error e => (Except.error e, t5)
            | Except.ok _ =>
              let t6 := t5 ++ [OrchAction.checkoutCreate rpBranch]
              match env.checkoutCreate rpBranch with
              | Except.error e => (Except.error e, t6)
              | Except.ok _ =>
                let t7 := t6 ++ [OrchAction.runUpdater nextVersion]
                match env.runUpdater nextVersion with
                | Except.error e => (Except.error e, t7)
                | Except.ok _ =>
                  let t8 := t7 ++ [OrchAction.renderChangelog]
                  match env.newChangelogEntry env.changesets nextVersion
                      (env.releaseURL nextVersion) with
                  | Except.error e => (Except.error e, t8)
                  | Except.ok changelogEntry =>
                    let t9 := t8 ++ [OrchAction.updateChangelogFile]
                    match env.updateChangelogFile changelogEntry with
                    | Except.error e => (Except.error e, t9)
                    | Except.ok _ =>
                      let msg := "chore(" ++ env.baseBranch ++ "): release " ++ nextVersion
                      let t10 := t9 ++ [OrchAction.commitWorktree msg]
                      match env.commitWorktree msg with
                      | Except.error e => (Except.error e, t10)
                      | Except.ok _ =>
                        let t11 := t10 ++ [OrchAction.push rpBranch]
                        match env.pushBranch with
                        | Except.error e => (Except.error e, t11)
                        | Except.ok _ => (Except.ok (), t11)

/-- Function `reconcileReleasePR` (part_000:109-212): look up the open release PR; if
one exists, extract the release overrides from it (failing the run on an
extraction error), otherwise keep the zero-value overrides; then run the
remaining steps (`reconcileReleasePRCont`).  The action trace records every
collaborator call made. -/
def reconcileReleasePR (env : OrchEnv) : Except OrchErr Unit × List OrchAction :=
  let rpBranch := rpBranchName env.baseBranch
  let t0 : List OrchAction := [OrchAction.prLookup rpBranch]
  match env.pullRequestForBranch rpBranch with
  | Except.error e => (Except.error e, t0)
  | Except.ok pr =>
    match pr with
    | some p =>
      match env.getOverrides p with
      | Except.error e => (Except.error e, t0 ++ [OrchAction.getOverrides])
      | Except.ok releaseOverrides =>
        reconcileReleasePRCont env releaseOverrides (t0 ++ [OrchAction.getOverrides])
    | none => reconcileReleasePRCont env { NextVersionType := none } t0

-- Propositional equality on `Except` results is decidable; used to evaluate
-- the theorems below on concrete inputs.
deriving instance DecidableEq for Except

/-! ## Concrete fixtures

Closed values used to instantiate the theorems on concrete inputs. -/

/-- A pagination response reporting no further pages. -/
def emptyResp : Resp := { NextPage := 0, LastPage := 0 }

/-- A pull request whose merge commit is some unrelated SHA. -/
def wPROther : GHPullRequest :=
  { Number := 41, Title := "other", Body := "", State := "open",
    HTMLURL := "https://example.com/pull/41", MergeCommitSHA := "other-sha",
    BaseLabel := "main", HeadLabel := "feature", Labels := [] }

/-- A pull request squash-merged as commit `abc`. -/
def wPRMatch : GHPullRequest :=
  { Number := 42, Title := "match", Body := "body", State := "closed",
    HTMLURL := "https://example.com/pull/42", MergeCommitSHA := "abc",
    BaseLabel := "main", HeadLabel := "feature-2", Labels := [] }

/-- Two pages of commits for the paged `CompareCommits` fixture. -/
def wComparePages : List (List GHRepositoryCommit) :=
  [[{ SHA := "abc", Message := "feat: one" }],
   [{ SHA := "def", Message := "fix: two" }]]

/-- Two pages of pull requests, none of them an open PR from any
reconciliation branch. -/
def wPRPages : List (List GHPullRequest) := [[wPROther], [wPRMatch]]

/-- A concrete client: no tags, a two-page commit comparison, associated-PR
listings keyed by SHA, and a two-page PR listing for any other argument. -/
def wClient : GitHubClient :=
  { listTagsPage := fun _ => Except.ok ([], emptyResp),
    compareCommitsPage := fun _ _ p => pagedCompareEndpoint 2 wComparePages p,
    listPRsWithCommitPage := fun sha p =>
      if sha = "abc" then Except.ok ([wPROther, wPRMatch], emptyResp)
      else if sha = "c1" then Except.ok ([wPROther], emptyResp)
      else pagedListEndpoint wPRPages p }

/-- A concrete adapter over `wClient`. -/
def wGH : GitHub :=
  { options := { Owner := "o", Repo := "r", BaseBranch := "main" }, client := wClient }

/-- A conventional-commit analyzer fixture: every commit is a feature. -/
def wAnalyze : List Commit → Except String (List AnalyzedCommit) :=
  fun cs => Except.ok (cs.map fun c =>
    { CommitType := "feat", Scope := "", Breaking := false,
      Description := c.Message, SourceCommit := c })

/-- The `github.ErrorResponse` message GitHub returns for a nonexistent
SHA/branch (changelog.go:392). -/
def noCommitFoundErr (branch : String) : GHError :=
  { isErrorResponse := true, message := "No commit found for SHA: " ++ branch }

/-- A client whose PR listing always fails with the nonexistent-SHA
`ErrorResponse` for branch `gone`. -/
def wErrClientNoCommit : GitHubClient :=
  { listTagsPage := fun _ => Except.ok ([], emptyResp),
    compareCommitsPage := fun _ _ _ =>
      Except.error { isErrorResponse := false, message := "unused" },
    listPRsWithCommitPage := fun _ _ => Except.error (noCommitFoundErr "gone") }

/-- A client whose PR listing always fails with a plain transport error. -/
def wErrClientBoom : GitHubClient :=
  { listTagsPage := fun _ => Except.ok ([], emptyResp),
    compareCommitsPage := fun _ _ _ =>
      Except.error { isErrorResponse := false, message := "unused" },
    listPRsWithCommitPage := fun _ _ =>
      Except.error { isErrorResponse := false, message := "boom" } }

/-- Adapter over `wErrClientNoCommit`. -/
def wGHErrNoCommit : GitHub :=
  { options := { Owner := "o", Repo := "r", BaseBranch := "main" },
    client := wErrClientNoCommit }

/-- Adapter over `wErrClientBoom`. -/
def wGHErrBoom : GitHub :=
  { options := { Owner := "o", Repo := "r", BaseBranch := "main" },
    client := wErrClientBoom }

/-- Tag fixtures for the tag-listing pagination counterexample. -/
def wTagFirst : GHTag := { Name := "v2.0.0", SHA := "sha2" }

/-- A tag only present on the second page of one listing. -/
def wTagSecondA : GHTag := { Name := "v1.0.0", SHA := "sha1" }

/-- A different second-page tag for the other listing. -/
def wTagSecondB : GHTag := { Name := "v0.9.0", SHA := "sha0" }

/-- A tags endpoint with two pages whose second page is `secondPage`; page 1
reports a further page (`NextPage = 2`, `LastPage = 2`). -/
def twoPageTagsClient (secondPage : List GHTag) : GitHubClient :=
  { listTagsPage := fun p =>
      if p = 1 then Except.ok ([wTagFirst], { NextPage := 2, LastPage := 2 })
      else if p = 2 then Except.ok (secondPage, emptyResp)
      else Except.ok ([], emptyResp),
    compareCommitsPage := fun _ _ _ =>
      Except.error { isErrorResponse := false, message := "unused" },
    listPRsWithCommitPage := fun _ _ => Except.ok ([], emptyResp) }

/-- Adapter whose tag listing has `wTagSecondA` on page 2. -/
def wGHTagsA : GitHub :=
  { options := { Owner := "o", Repo := "r", BaseBranch := "main" },
    client := twoPageTagsClient [wTagSecondA] }

/-- Adapter whose tag listing has `wTagSecondB` on page 2. -/
def wGHTagsB : GitHub :=
  { options := { Owner := "o", Repo := "r", BaseBranch := "main" },
    client := twoPageTagsClient [wTagSecondB] }

/-- A concrete changelog renderer fixture. -/
def wRender : ChangelogData → Except String String :=
  fun d => Except.ok (d.Version ++ "|" ++ d.VersionLink ++ "|"
    ++ toString d.Features.length ++ "|" ++ toString d.Fixes.length
    ++ "|" ++ d.PreText ++ "|" ++ d.SufText)

/-- An analyzed commit of a type that is neither `feat` nor `fix`. -/
def wDocsCommit : AnalyzedCommit :=
  { CommitType := "docs", Scope := "", Breaking := false,
    Description := "update readme",
    SourceCommit := { Hash := "d1", Message := "docs: update readme" } }

/-- An orchestrator environment in which every collaborator call succeeds. -/
def happyEnv : OrchEnv :=
  { baseBranch := "main",
    tag := some { Hash := "t0", Name := "v1.0.0" },
    changesets := [],
    pullRequestForBranch := fun _ => Except.ok none,
    getOverrides := fun _ => Except.ok { NextVersionType := none },
    nextVersion := fun _ _ _ => Except.ok "1.1.0",
    cloneRepo := Except.ok (),
    worktree := Except.ok (),
    branchExists := fun _ => false,
    deleteBranch := fun _ => Except.ok (),
    checkoutCreate := fun _ => Except.ok (),
    runUpdater := fun _ => Except.ok (),
    newChangelogEntry := fun _ _ _ => Except.ok "changelog entry",
    updateChangelogFile := fun _ => Except.ok (),
    commitWorktree := fun _ => Except.ok "deadbeef",
    pushBranch := Except.ok (),
    releaseURL := fun v => "https://example.com/releases/tag/" ++ v }

/-- The changeset produced for commit `abc` of the `wGH` fixture. -/
def wChangesetAbc : Changeset :=
  { URL := "https://example.com/pull/42", Identifier := "#42",
    ChangelogEntries := [{ CommitType := "feat", Scope := "", Breaking := false,
                           Description := "feat: one",
                           SourceCommit := { Hash := "abc", Message := "feat: one" } }] }

/-! ## Pagination helper lemmas -/

theorem commitsSinceTagLoop_paged (g : GitHub) (base : String) (total : Nat)
    (pages : List (List GHRepositoryCommit))
    (hcl : ∀ p, g.client.compareCommitsPage base g.options.BaseBranch p
        = pagedCompareEndpoint total pages p) :
    ∀ fuel page acc, 1 ≤ page → pages.length - page < fuel →
      GitHub.commitsSinceTagLoop g base fuel page acc
        = some (Except.ok (acc ++ (pages.drop (page - 1)).flatten)) := by
  intro fuel
  induction fuel with
  | zero => intro page acc h1 h2; omega
  | succ fuel ih =>
    intro page acc h1 h2
    rw [GitHub.commitsSinceTagLoop, hcl page]
    unfold pagedCompareEndpoint mkPageResp
    by_cases hlt : page < pages.length
    · have hc1 : (page == pages.length) = false := beq_eq_false_iff_ne.mpr (by omega)
      have hc2 : (pages.length == (0 : Nat)) = false := beq_eq_false_iff_ne.mpr (by omega)
      have hidx : page - 1 < pages.length := by omega
      have hp : page - 1 + 1 = page := by omega
      have hrec := ih (page + 1) (acc ++ pages.getD (page - 1) []) (by omega) (by omega)
      simp only [if_pos hlt, hc1, hc2, Bool.or_self, Bool.false_eq_true, if_false, hrec,
        Nat.add_sub_cancel]
      rw [List.drop_eq_getElem_cons hidx, hp, List.flatten_cons,
        List.getD_eq_getElem _ _ hidx]
      simp [List.append_assoc]
    · have hor : (page == (0 : Nat) || (0 : Nat) == (0 : Nat)) = true := by simp
      simp only [if_neg hlt, hor, if_true]
      by_cases heq : page = pages.length
      · have hidx : page - 1 < pages.length := by omega
        have hp : page - 1 + 1 = page := by omega
        have hdrop : List.drop page pages = [] := List.drop_eq_nil_of_le (by omega)
        rw [List.drop_eq_getElem_cons hidx, hp, hdrop, List.flatten_cons,
          List.flatten_nil, List.append_nil, List.getD_eq_getElem _ _ hidx]
      · have hge : pages.length ≤ page - 1 := by omega
        rw [List.getD_eq_default _ _ hge, List.drop_eq_nil_of_le hge]
        simp

theorem assocPRsLoop_paged (g : GitHub) (sha : String)
    (pages : List (List GHPullRequest))
    (hcl : ∀ p, g.client.listPRsWithCommitPage sha p = pagedListEndpoint pages p) :
    ∀ fuel page acc, 1 ≤ page → pages.length - page < fuel →
      GitHub.assocPRsLoop g sha fuel page acc
        = some (Except.ok (acc ++ (pages.drop (page - 1)).flatten)) := by
  intro fuel
  induction fuel with
  | zero => intro page acc h1 h2; omega
  | succ fuel ih =>
    intro page acc h1 h2
    rw [GitHub.assocPRsLoop, hcl page]
    unfold pagedListEndpoint mkPageResp
    by_cases hlt : page < pages.length
    · have hc1 : (page == pages.length) = false := beq_eq_false_iff_ne.mpr (by omega)
      have hc2 : (pages.length == (0 : Nat)) = false := beq_eq_false_iff_ne.mpr (by omega)
      have hidx : page - 1 < pages.length := by omega
      have hp : page - 1 + 1 = page := by omega
      have hrec := ih (page + 1) (acc ++ pages.getD (page - 1) []) (by omega) (by omega)
      simp only [if_pos hlt, hc1, hc2, Bool.or_self, Bool.false_eq_true, if_false, hrec,
        Nat.add_sub_cancel]
      rw [List.drop_eq_getElem_cons hidx, hp, List.flatten_cons,
        List.getD_eq_getElem _ _ hidx]
      simp [List.append_assoc]
    · have hor : (page == (0 : Nat) || (0 : Nat) == (0 : Nat)) = true := by simp
      simp only [if_neg hlt, hor, if_true]
      by_cases heq : page = pages.length
      · have hidx : page - 1 < pages.length := by omega
        have hp : page - 1 + 1 = page := by omega
        have hdrop : List.drop page pages = [] := List.drop_eq_nil_of_le (by omega)
        rw [List.drop_eq_getElem_cons hidx, hp, hdrop, List.flatten_cons,
          List.flatten_nil, List.append_nil, List.getD_eq_getElem _ _ hidx]
      · have hge : pages.length ≤ page - 1 := by omega
        rw [List.getD_eq_default _ _ hge, List.drop_eq_nil_of_le hge]
        simp

theorem prForBranchLoop_paged_noMatch (g : GitHub) (branch : String)
    (pages : List (List GHPullRequest))
    (hcl : ∀ p, g.client.listPRsWithCommitPage branch p = pagedListEndpoint pages p)
    (hnm : ∀ pr ∈ pages.flatten,
      (pr.BaseLabel == g.options.BaseBranch && pr.HeadLabel == branch
        && pr.State == GitHubPRStateOpen) = false) :
    ∀ fuel page, 1 ≤ page → pages.length - page < fuel →
      GitHub.prForBranchLoop g branch fuel page = some (Except.ok none) := by
  have hfind : ∀ k : Nat, List.find?
      (fun pr => pr.BaseLabel == g.options.BaseBranch && pr.HeadLabel == branch
        && pr.State == GitHubPRStateOpen) (pages.getD k []) = none := by
    intro k
    apply List.find?_eq_none.mpr
    intro x hx
    by_cases hk : k < pages.length
    · rw [List.getD_eq_getElem _ _ hk] at hx
      have hmem : x ∈ pages.flatten :=
        List.mem_flatten.mpr ⟨pages[k], List.getElem_mem hk, hx⟩
      simp [hnm x hmem]
    · rw [List.getD_eq_default _ _ (by omega)] at hx
      simp at hx
  intro fuel
  induction fuel with
  | zero => intro page h1 h2; omega
  | succ fuel ih =>
    intro page h1 h2
    rw [GitHub.prForBranchLoop, hcl page]
    unfold pagedListEndpoint mkPageResp
    by_cases hlt : page < pages.length
    · have hc1 : (page == pages.length) = false := beq_eq_false_iff_ne.mpr (by omega)
      have hc2 : (pages.length == (0 : Nat)) = false := beq_eq_false_iff_ne.mpr (by omega)
      have hrec := ih (page + 1) (by omega) (by omega)
      simp only [if_pos hlt, hfind, hc1, hc2, Bool.or_self, Bool.false_eq_true, if_false,
        hrec]
    · have hor : (page == (0 : Nat) || (0 : Nat) == (0 : Nat)) = true := by simp
      simp only [if_neg hlt, hfind, hor, if_true]

/-- Accumulator generalization of the grouping loop of `NewChangelogEntry`:
folding the switch over the commits extends the accumulators with the
`feat`-filtered and `fix`-filtered commits, in input order. -/
theorem changelogGroups_foldl (commits : List AnalyzedCommit) :
    ∀ f x : List AnalyzedCommit,
      commits.foldl (fun acc commit =>
        if commit.CommitType == "feat" then (acc.1 ++ [commit], acc.2)
        else if commit.CommitType == "fix" then (acc.1, acc.2 ++ [commit])
        else acc) (f, x)
      = (f ++ commits.filter (fun c => c.CommitType == "feat"),
         x ++ commits.filter (fun c => c.CommitType == "fix")) := by
  induction commits with
  | nil => intro f x; simp
  | cons c l ih =>
    intro f x
    rw [List.foldl_cons, List.filter_cons, List.filter_cons]
    by_cases hfeat : c.CommitType = "feat"
    · have hb1 : (c.CommitType == "feat") = true := beq_iff_eq.mpr hfeat
      have hb2 : (c.CommitType == "fix") = false :=
        beq_eq_false_iff_ne.mpr (by rw [hfeat]; decide)
      simp only [hb1, hb2, eq_self_iff_true, if_true, Bool.false_eq_true, if_false]
      rw [ih (f ++ [c]) x]
      simp [List.append_assoc]
    · have hb1 : (c.CommitType == "feat") = false := beq_eq_false_iff_ne.mpr hfeat
      by_cases hfix : c.CommitType = "fix"
      · have hb2 : (c.CommitType == "fix") = true := beq_iff_eq.mpr hfix
        simp only [hb1, hb2, eq_self_iff_true, if_true, Bool.false_eq_true, if_false]
        rw [ih f (x ++ [c])]
        simp [List.append_assoc]
      · have hb2 : (c.CommitType == "fix") = false := beq_eq_false_iff_ne.mpr hfix
        simp only [hb1, hb2, Bool.false_eq_true, if_false]
        rw [ih f x]

/-- C1 (code bug): for every adapter and fuel, `GitHub.CommitsSince` called
with `tag = none` returns the error `"not implemented"` — it never returns
the commit history, contradicting the claim and the `Forge` interface's own
documentation ("The tag can be nil, in which case this function should
return all commits"). -/
theorem c1_commitsSince_noTag_is_error (g : GitHub) (fuel : Nat) :
    GitHub.CommitsSince g none fuel
      = some (Except.error { isErrorResponse := false, message := "not implemented" }) :=
  rfl

/-- C7: `NewChangelogEntry` hands the renderer exactly the `feat`-typed
commits as the Features group and exactly the `fix`-typed commits as the
Fixes group, each preserving the input order; commits of every other type
are in neither group. -/
theorem c7_changelog_groups (render : ChangelogData → Except String String)
    (commits : List AnalyzedCommit) (version link preText sufText : String) :
    NewChangelogEntry render commits version link preText sufText
      = render { Features := commits.filter (fun c => c.CommitType == "feat"),
                 Fixes := commits.filter (fun c => c.CommitType == "fix"),
                 Version := version, VersionLink := link,
                 PreText := preText, SufText := sufText } := by
  unfold NewChangelogEntry changelogGroups
  rw [changelogGroups_foldl commits [] []]
  simp

/-- C8: `NewChangelogEntry` is deterministic — its output is a pure function
of its arguments (two invocations on the same input are byte-identical), and
is fully determined by the grouped semantic data handed to the renderer. -/
theorem c8_changelog_deterministic (render : ChangelogData → Except String String)
    (commits commits2 : List AnalyzedCommit) (version link preText sufText : String) :
    NewChangelogEntry render commits version link preText sufText
      = NewChangelogEntry render commits version link preText sufText
    ∧ (changelogGroups commits = changelogGroups commits2 →
        NewChangelogEntry render commits version link preText sufText
          = NewChangelogEntry render commits2 version link preText sufText) := by
  refine ⟨rfl, fun h => ?_⟩
  unfold NewChangelogEntry
  rw [h]

/-- Witness for C8 at concrete inputs: a `docs`-typed commit yields the same
groups as no commit at all, and the rendered entries agree byte for byte. -/
theorem c8_witness :
    changelogGroups [wDocsCommit] = changelogGroups []
    ∧ NewChangelogEntry wRender [wDocsCommit] "1.2.3" "https://x" "P" "S"
        = NewChangelogEntry wRender [] "1.2.3" "https://x" "P" "S" :=
  ⟨by decide,
   (c8_changelog_deterministic wRender [wDocsCommit] [] "1.2.3" "https://x" "P" "S").2
     (by decide)⟩

/-- C3 counterexample: the tag-listing forge call does not paginate.  Page 1
of the tag listing reports a further page (`LastPage = 2`), the two clients
differ only in that second page, yet `LatestTag` returns the same result for
both — the second page's results are never requested or accumulated. -/
theorem c3_counterexample_latestTag_single_page :
    wGHTagsA.client.listTagsPage 1
        = Except.ok ([wTagFirst], { NextPage := 2, LastPage := 2 })
    ∧ wGHTagsA.client.listTagsPage 2 ≠ wGHTagsB.client.listTagsPage 2
    ∧ GitHub.LatestTag wGHTagsA = GitHub.LatestTag wGHTagsB
    ∧ GitHub.LatestTag wGHTagsA
        = Except.ok (some { Hash := "sha2", Name := "v2.0.0" }) := by
  refine ⟨by decide, by decide, by decide, by decide⟩

/-- C3 (amended): the paginating list-style calls — the commit comparison of
`commitsSinceTag`, the per-commit PR lookup of `Changesets`, and the scan of
`PullRequestForBranch` — request successive pages until the platform reports
no further pages; the first two return all pages' results accumulated in
request order, and the PR-for-branch scan (here in its no-match case)
examines every page before returning.  The tag listing, by design, fetches
only the first page. -/
theorem c3_amended_pagination :
    (∀ (g : GitHub) (tag : Tag) (total fuel : Nat)
        (pages : List (List GHRepositoryCommit)),
      (∀ p, g.client.compareCommitsPage tag.Hash g.options.BaseBranch p
          = pagedCompareEndpoint total pages p) →
      pages.length < fuel →
      GitHub.commitsSinceTag g tag fuel = some (Except.ok pages.flatten))
    ∧ (∀ (g : GitHub) (sha : String) (fuel : Nat)
        (pages : List (List GHPullRequest)),
      (∀ p, g.client.listPRsWithCommitPage sha p = pagedListEndpoint pages p) →
      pages.length < fuel →
      GitHub.assocPRsLoop g sha fuel 1 [] = some (Except.ok pages.flatten))
    ∧ (∀ (g : GitHub) (branch : String) (fuel : Nat)
        (pages : List (List GHPullRequest)),
      (∀ p, g.client.listPRsWithCommitPage branch p = pagedListEndpoint pages p) →
      (∀ pr ∈ pages.flatten,
        (pr.BaseLabel == g.options.BaseBranch && pr.HeadLabel == branch
          && pr.State == GitHubPRStateOpen) = false) →
      pages.length < fuel →
      GitHub.PullRequestForBranch g branch fuel = some (Except.ok none)) := by
  refine ⟨?_, ?_, ?_⟩
  · intro g tag total fuel pages hcl hfuel
    unfold GitHub.commitsSinceTag
    rw [commitsSinceTagLoop_paged g tag.Hash total pages hcl fuel 1 [] (by omega) (by omega)]
    simp
  · intro g sha fuel pages hcl hfuel
    rw [assocPRsLoop_paged g sha pages hcl fuel 1 [] (by omega) (by omega)]
    simp
  · intro g branch fuel pages hcl hnm hfuel
    exact prForBranchLoop_paged_noMatch g branch pages hcl hnm fuel 1 (by omega) (by omega)

/-- Witness for C3's amended pagination facts on the concrete two-page
client `wGH`. -/
theorem c3_amended_witness :
    GitHub.commitsSinceTag wGH { Hash := "t0", Name := "v1.0.0" } 3
      = some (Except.ok [{ SHA := "abc", Message := "feat: one" },
                         { SHA := "def", Message := "fix: two" }])
    ∧ GitHub.assocPRsLoop wGH "unkeyed-sha" 3 1 []
        = some (Except.ok [wPROther, wPRMatch])
    ∧ GitHub.PullRequestForBranch wGH "releaser-pleaser--branches--main" 3
        = some (Except.ok none) := by
  refine ⟨?_, ?_, ?_⟩
  · have h := c3_amended_pagination.1 wGH { Hash := "t0", Name := "v1.0.0" } 2 3
      wComparePages (fun p => rfl) (by decide)
    rw [h]; decide
  · have h := c3_amended_pagination.2.1 wGH "unkeyed-sha" 3 wPRPages
      (fun p => rfl) (by decide)
    rw [h]; decide
  · exact c3_amended_pagination.2.2 wGH "releaser-pleaser--branches--main" 3 wPRPages
      (fun p => rfl) (by decide) (by decide)

/-- C6: forge semantic absence is an explicit `none`, not an error —
`LatestTag` returns `ok none` when the repository's tag listing is empty, and
`PullRequestForBranch` returns `ok none` when no page contains an open pull
request from the branch into the base branch. -/
theorem c6_absence_is_none_not_error :
    (∀ (g : GitHub) (resp : Resp),
      g.client.listTagsPage 1 = Except.ok ([], resp) →
      GitHub.LatestTag g = Except.ok none)
    ∧ (∀ (g : GitHub) (branch : String) (fuel : Nat)
        (pages : List (List GHPullRequest)),
      (∀ p, g.client.listPRsWithCommitPage branch p = pagedListEndpoint pages p) →
      (∀ pr ∈ pages.flatten,
        (pr.BaseLabel == g.options.BaseBranch && pr.HeadLabel == branch
          && pr.State == GitHubPRStateOpen) = false) →
      pages.length < fuel →
      GitHub.PullRequestForBranch g branch fuel = some (Except.ok none)) := by
  constructor
  · intro g resp h
    unfold GitHub.LatestTag
    rw [h]
  · intro g branch fuel pages hcl hnm hfuel
    exact prForBranchLoop_paged_noMatch g branch pages hcl hnm fuel 1 (by omega) (by omega)

/-- Witness for C6 on concrete clients: `wGH` has an empty tag listing and
no open PR from the queried branch on either PR page. -/
theorem c6_witness :
    GitHub.LatestTag wGH = Except.ok none
    ∧ GitHub.PullRequestForBranch wGH "no-such-branch" 4 = some (Except.ok none) :=
  ⟨c6_absence_is_none_not_error.1 wGH emptyResp rfl,
   c6_absence_is_none_not_error.2 wGH "no-such-branch" 4 wPRPages
     (fun p => rfl) (by decide) (by decide)⟩

/-- C10: when the PR listing inside `PullRequestForBranch` fails with a
GitHub `ErrorResponse` whose message is exactly
`"No commit found for SHA: <branch>"`, the function returns `ok none` (a
nonexistent reconciliation branch is treated as absence of a release PR);
any other error from that call is returned to the caller unchanged. -/
theorem c10_pr_branch_error_handling (g : GitHub) (branch : String)
    (e : GHError) (fuel : Nat)
    (h1 : g.client.listPRsWithCommitPage branch 1 = Except.error e) :
    (e.isErrorResponse = true →
      e.message = "No commit found for SHA: " ++ branch →
      GitHub.PullRequestForBranch g branch (fuel + 1) = some (Except.ok none))
    ∧ ((e.isErrorResponse && (e.message == "No commit found for SHA: " ++ branch)) = false →
      GitHub.PullRequestForBranch g branch (fuel + 1) = some (Except.error e)) := by
  constructor
  · intro hr hm
    have hc : (e.isErrorResponse && (e.message == "No commit found for SHA: " ++ branch)) = true := by
      rw [hr, hm]
      simp
    unfold GitHub.PullRequestForBranch
    rw [GitHub.prForBranchLoop]
    simp only [h1, hc, if_true]
  · intro hc
    unfold GitHub.PullRequestForBranch
    rw [GitHub.prForBranchLoop]
    simp only [h1, hc, Bool.false_eq_true, if_false]

/-- Witness for C10 on concrete clients: the nonexistent-SHA `ErrorResponse`
yields `ok none`, while a plain transport error is propagated. -/
theorem c10_witness :
    GitHub.PullRequestForBranch wGHErrNoCommit "gone" 3 = some (Except.ok none)
    ∧ GitHub.PullRequestForBranch wGHErrBoom "gone" 3
        = some (Except.error { isErrorResponse := false, message := "boom" }) :=
  ⟨(c10_pr_branch_error_handling wGHErrNoCommit "gone" (noCommitFoundErr "gone") 2 rfl).1
      rfl (by decide),
   (c10_pr_branch_error_handling wGHErrBoom "gone"
      { isErrorResponse := false, message := "boom" } 2 rfl).2 (by decide)⟩

/-- Lines that are not a matching end marker for the open section stay in the
body; the first matching end-marker line closes the block, is consumed, and
everything after it is left outside. -/
theorem sectionBody_spec (name : String) (pre post : List String) (endLine : String)
    (hpre : ∀ l ∈ pre, sectionEndName l ≠ some name)
    (hend : sectionEndName endLine = some name) :
    sectionBody { Name := name } (pre ++ endLine :: post) = (pre, post) := by
  induction pre with
  | nil =>
    rw [List.nil_append]
    unfold sectionBody sectionParserContinue
    simp only [hend, eq_self_iff_true, if_true]
  | cons l rest ih =>
    rw [List.cons_append]
    unfold sectionBody
    have hcont : sectionParserContinue { Name := name } l
        = (SectionParserState.continueChildren, false) := by
      unfold sectionParserContinue
      cases hcase : sectionEndName l with
      | none => rfl
      | some m =>
        have hne : m ≠ name := by
          intro hmn
          exact hpre l (List.mem_cons_self l rest) (by rw [hcase, hmn])
        simp only [if_neg hne]
    rw [hcont]
    have ihres := ih (fun x hx => hpre x (List.mem_cons_of_mem l hx))
    simp only [ihres]

/-- C5: a section block opened on name `N` closes only on an end marker whose
captured name is exactly `N`: end markers carrying any other name are kept as
ordinary nested content, and the matching end-marker line itself is consumed
and excluded from the section body (as is everything after it). -/
theorem c5_section_close_only_on_matching_name (name startLine endLine : String)
    (pre post : List String)
    (hopen : sectionParserOpen startLine = some { Name := name })
    (hpre : ∀ l ∈ pre, sectionEndName l ≠ some name)
    (hend : sectionEndName endLine = some name) :
    parseSectionBlock (startLine :: (pre ++ endLine :: post))
      = some ({ Name := name }, pre, post)
    ∧ ∀ l m : String, sectionEndName l = some m → m ≠ name →
        sectionParserContinue { Name := name } l
          = (SectionParserState.continueChildren, false) := by
  constructor
  · unfold parseSectionBlock
    simp only [hopen, sectionBody_spec name pre post endLine hpre hend]
  · intro l m hl hm
    unfold sectionParserContinue
    simp only [hl, if_neg hm]

/-- Witness for C5 on concrete lines: a section named `foo` keeps a stray
`section-end bar` marker as body content and closes on `section-end foo`. -/
theorem c5_witness :
    parseSectionBlock
        ["<!-- section-start foo -->", "hello", "<!-- section-end bar -->",
         "<!-- section-end foo -->", "after"]
      = some ({ Name := "foo" }, ["hello", "<!-- section-end bar -->"], ["after"])
    ∧ sectionParserContinue { Name := "foo" } "<!-- section-end bar -->"
        = (SectionParserState.continueChildren, false) :=
  ⟨(c5_section_close_only_on_matching_name "foo" "<!-- section-start foo -->"
      "<!-- section-end foo -->" ["hello", "<!-- section-end bar -->"] ["after"]
      (by decide) (by decide) (by decide)).1,
   (c5_section_close_only_on_matching_name "foo" "<!-- section-start foo -->"
      "<!-- section-end foo -->" ["hello", "<!-- section-end bar -->"] ["after"]
      (by decide) (by decide) (by decide)).2
     "<!-- section-end bar -->" "bar" (by decide) (by decide)⟩

/-- Provenance of the changesets produced by `GitHub.Changesets`: every
changeset in a successful result has a non-empty entry list and stems from an
input commit whose associated-PR listing succeeded and contained a pull
request whose merge-commit SHA equals the commit hash — the first such PR,
whose URL and number the changeset carries. -/
theorem changesets_provenance (g : GitHub)
    (analyze : List Commit → Except String (List AnalyzedCommit)) (fuel : Nat) :
    ∀ (commits : List Commit) (res : List Changeset × List ChangesetLog),
      GitHub.Changesets g analyze fuel commits = some (Except.ok res) →
      ∀ x ∈ res.1, x.ChangelogEntries ≠ [] ∧ ∃ cm ∈ commits, ∃ aprs pr,
        GitHub.assocPRsLoop g cm.Hash fuel 1 [] = some (Except.ok aprs)
        ∧ List.find? (fun pr2 => pr2.MergeCommitSHA == cm.Hash) aprs = some pr
        ∧ pr.MergeCommitSHA = cm.Hash
        ∧ x.URL = pr.HTMLURL
        ∧ x.Identifier = "#" ++ toString pr.Number := by
  intro commits
  induction commits with
  | nil =>
    intro res h x hx
    simp only [GitHub.Changesets, Option.some.injEq, Except.ok.injEq] at h
    rw [← h] at hx
    simp at hx
  | cons c rest ih =>
    intro res h x hx
    cases hassoc : GitHub.assocPRsLoop g c.Hash fuel 1 [] with
    | none => simp [GitHub.Changesets, hassoc] at h
    | some eassoc =>
      cases eassoc with
      | error e => simp [GitHub.Changesets, hassoc] at h
      | ok aprs =>
        simp only [GitHub.Changesets, hassoc] at h
        cases hfind : List.find? (fun pr => pr.MergeCommitSHA == c.Hash) aprs with
        | none =>
          simp only [hfind] at h
          cases hrest : GitHub.Changesets g analyze fuel rest with
          | none => simp [hrest] at h
          | some erest =>
            cases erest with
            | error e => simp [hrest] at h
            | ok pair =>
              obtain ⟨cs, logs⟩ := pair
              simp only [hrest, Option.some.injEq, Except.ok.injEq] at h
              rw [← h] at hx
              obtain ⟨hne, cm, hcm, rest_prov⟩ := ih (cs, logs) hrest x hx
              exact ⟨hne, cm, List.mem_cons_of_mem c hcm, rest_prov⟩
        | some pullrequest =>
          simp only [hfind] at h
          cases hana : analyze [c] with
          | error e =>
            simp only [hana] at h
            cases hrest : GitHub.Changesets g analyze fuel rest with
            | none => simp [hrest] at h
            | some erest =>
              cases erest with
              | error e2 => simp [hrest] at h
              | ok pair =>
                obtain ⟨cs, logs⟩ := pair
                simp only [hrest, Option.some.injEq, Except.ok.injEq] at h
                rw [← h] at hx
                obtain ⟨hne, cm, hcm, rest_prov⟩ := ih (cs, logs) hrest x hx
                exact ⟨hne, cm, List.mem_cons_of_mem c hcm, rest_prov⟩
          | ok changelogEntries =>
            simp only [hana] at h
            cases hrest : GitHub.Changesets g analyze fuel rest with
            | none => simp [hrest] at h
            | some erest =>
              cases erest with
              | error e2 => simp [hrest] at h
              | ok pair =>
                obtain ⟨cs, logs⟩ := pair
                simp only [hrest] at h
                by_cases hlen : changelogEntries.length > 0
                · simp only [if_pos hlen, Option.some.injEq, Except.ok.injEq] at h
                  rw [← h] at hx
                  rcases List.mem_cons.mp hx with hx1 | hx2
                  · refine ⟨?_, c, List.mem_cons_self c rest, aprs, pullrequest,
                      hassoc, hfind, ?_, ?_, ?_⟩
                    · rw [hx1]
                      intro hemp
                      simp at hemp
                      rw [hemp] at hlen
                      simp at hlen
                    · have := List.find?_some hfind
                      exact beq_iff_eq.mp this
                    · rw [hx1]
                    · rw [hx1]
                  · obtain ⟨hne, cm, hcm, rest_prov⟩ := ih (cs, logs) hrest x hx2
                    exact ⟨hne, cm, List.mem_cons_of_mem c hcm, rest_prov⟩
                · simp only [if_neg hlen, Option.some.injEq, Except.ok.injEq] at h
                  rw [← h] at hx
                  obtain ⟨hne, cm, hcm, rest_prov⟩ := ih (cs, logs) hrest x hx
                  exact ⟨hne, cm, List.mem_cons_of_mem c hcm, rest_prov⟩

/-- C4: `Changesets` associates a commit with a pull request only when the
PR's recorded merge-commit SHA equals the commit hash: a commit none of whose
associated PRs has a matching merge-commit SHA yields no changeset, its drop
is logged, and the remaining commits are processed without error; conversely
every produced changeset stems from a PR whose merge-commit SHA equals its
source commit's hash. -/
theorem c4_changesets_match_by_merge_sha (g : GitHub)
    (analyze : List Commit → Except String (List AnalyzedCommit))
    (fuel : Nat) (c : Commit) (rest : List Commit)
    (prs : List GHPullRequest) (cs : List Changeset) (logs : List ChangesetLog)
    (hassoc : GitHub.assocPRsLoop g c.Hash fuel 1 [] = some (Except.ok prs))
    (hnomatch : ∀ pr ∈ prs, pr.MergeCommitSHA ≠ c.Hash)
    (hrest : GitHub.Changesets g analyze fuel rest = some (Except.ok (cs, logs))) :
    GitHub.Changesets g analyze fuel (c :: rest)
      = some (Except.ok (cs, ChangesetLog.droppedNoPR c.Hash :: logs))
    ∧ ∀ (commits : List Commit) (res : List Changeset × List ChangesetLog),
        GitHub.Changesets g analyze fuel commits = some (Except.ok res) →
        ∀ x ∈ res.1, ∃ cm ∈ commits, ∃ aprs pr,
          GitHub.assocPRsLoop g cm.Hash fuel 1 [] = some (Except.ok aprs)
          ∧ List.find? (fun pr2 => pr2.MergeCommitSHA == cm.Hash) aprs = some pr
          ∧ pr.MergeCommitSHA = cm.Hash
          ∧ x.URL = pr.HTMLURL
          ∧ x.Identifier = "#" ++ toString pr.Number := by
  constructor
  · have hfind : List.find? (fun pr => pr.MergeCommitSHA == c.Hash) prs = none :=
      List.find?_eq_none.mpr (fun pr hpr => by simp [hnomatch pr hpr])
    simp only [GitHub.Changesets, hassoc, hfind, hrest]
  · intro commits res h x hx
    exact (changesets_provenance g analyze fuel commits res h x hx).2

/-- Witness for C4: commit `c1` has one associated PR whose merge commit is a
different SHA — no changeset, a logged drop, successful result. -/
theorem c4_witness :
    GitHub.Changesets wGH wAnalyze 2 [{ Hash := "c1", Message := "chore: direct push" }]
      = some (Except.ok ([], [ChangesetLog.droppedNoPR "c1"])) :=
  (c4_changesets_match_by_merge_sha wGH wAnalyze 2
    { Hash := "c1", Message := "chore: direct push" } [] [wPROther] [] []
    (by decide) (by decide) rfl).1

/-- C9: every changeset returned by `Changesets` has a non-empty
`ChangelogEntries` list: a commit whose matched pull request exists but whose
analysis yields no entries contributes no changeset (and no log entry), and a
commit whose analysis fails contributes no changeset and a logged warning. -/
theorem c9_changeset_entries_nonempty (g : GitHub)
    (analyze : List Commit → Except String (List AnalyzedCommit)) (fuel : Nat) :
    (∀ (commits : List Commit) (res : List Changeset × List ChangesetLog),
      GitHub.Changesets g analyze fuel commits = some (Except.ok res) →
      ∀ x ∈ res.1, x.ChangelogEntries ≠ [])
    ∧ (∀ (c : Commit) (rest : List Commit) (aprs : List GHPullRequest)
        (pr : GHPullRequest) (cs : List Changeset) (logs : List ChangesetLog),
      GitHub.assocPRsLoop g c.Hash fuel 1 [] = some (Except.ok aprs) →
      List.find? (fun pr2 => pr2.MergeCommitSHA == c.Hash) aprs = some pr →
      analyze [c] = Except.ok [] →
      GitHub.Changesets g analyze fuel rest = some (Except.ok (cs, logs)) →
      GitHub.Changesets g analyze fuel (c :: rest) = some (Except.ok (cs, logs)))
    ∧ (∀ (c : Commit) (rest : List Commit) (aprs : List GHPullRequest)
        (pr : GHPullRequest) (err : String) (cs : List Changeset)
        (logs : List ChangesetLog),
      GitHub.assocPRsLoop g c.Hash fuel 1 [] = some (Except.ok aprs) →
      List.find? (fun pr2 => pr2.MergeCommitSHA == c.Hash) aprs = some pr →
      analyze [c] = Except.error err →
      GitHub.Changesets g analyze fuel rest = some (Except.ok (cs, logs)) →
      GitHub.Changesets g analyze fuel (c :: rest)
        = some (Except.ok (cs, ChangesetLog.analyzeFailed c.Hash :: logs))) := by
  refine ⟨?_, ?_, ?_⟩
  · intro commits res h x hx
    exact (changesets_provenance g analyze fuel commits res h x hx).1
  · intro c rest aprs pr cs logs hassoc hfind hana hrest
    simp only [GitHub.Changesets, hassoc, hfind, hana, hrest]
    simp
  · intro c rest aprs pr err cs logs hassoc hfind hana hrest
    simp only [GitHub.Changesets, hassoc, hfind, hana, hrest]

/-- Witness for C9: the single changeset produced for commit `abc` carries a
non-empty entry list. -/
theorem c9_witness :
    GitHub.Changesets wGH wAnalyze 2 [{ Hash := "abc", Message := "feat: one" }]
      = some (Except.ok ([wChangesetAbc], []))
    ∧ wChangesetAbc.ChangelogEntries ≠ [] :=
  ⟨by decide,
   (c9_changeset_entries_nonempty wGH wAnalyze 2).1
     [{ Hash := "abc", Message := "feat: one" }] ([wChangesetAbc], []) (by decide)
     wChangesetAbc (by simp)⟩

/-- No continuation run of `reconcileReleasePR` — whatever its collaborators
return — makes a pull-request upsert call: the source ends at the push with
`// TODO Open PR`. -/
theorem reconcileReleasePRCont_never_upserts (env : OrchEnv)
    (ov : ReleaseOverrides) (t : List OrchAction)
    (ht : OrchAction.upsertPullRequest ∉ t) :
    OrchAction.upsertPullRequest ∉ (reconcileReleasePRCont env ov t).2 := by
  unfold reconcileReleasePRCont
  by_cases hb : env.branchExists (rpBranchName env.baseBranch) = true
  · simp only [if_pos hb]
    repeat' split
    all_goals simp_all
  · simp only [if_neg hb]
    repeat' split
    all_goals simp_all

/-- No run of `reconcileReleasePR` — whatever its collaborators return —
makes a pull-request upsert call. -/
theorem reconcileReleasePR_never_upserts (env : OrchEnv) :
    OrchAction.upsertPullRequest ∉ (reconcileReleasePR env).2 := by
  cases hpr : env.pullRequestForBranch (rpBranchName env.baseBranch) with
  | error e => simp [reconcileReleasePR, hpr]
  | ok pr =>
    cases pr with
    | some p =>
      cases hov : env.getOverrides p with
      | error e => simp [reconcileReleasePR, hpr, hov]
      | ok ov =>
        have h2 := reconcileReleasePRCont_never_upserts env ov
          [OrchAction.prLookup (rpBranchName env.baseBranch), OrchAction.getOverrides]
          (by simp)
        simpa [reconcileReleasePR, hpr, hov] using h2
    | none =>
      have h2 := reconcileReleasePRCont_never_upserts env { NextVersionType := none }
        [OrchAction.prLookup (rpBranchName env.baseBranch)] (by simp)
      simpa [reconcileReleasePR, hpr] using h2

/-- C2 (code bug): a run in which every collaborator call succeeds reports
success immediately after the force-push: its action trace ends at `push`,
and it contains no pull-request upsert call — the release PR is neither
created nor updated before success is reported. -/
theorem c2_success_without_upsert :
    (reconcileReleasePR happyEnv).1 = Except.ok ()
    ∧ (reconcileReleasePR happyEnv).2
      = [OrchAction.prLookup "releaser-pleaser--branches--main",
         OrchAction.computeNextVersion, OrchAction.cloneRepo,
         OrchAction.getWorktree,
         OrchAction.checkoutCreate "releaser-pleaser--branches--main",
         OrchAction.runUpdater "1.1.0", OrchAction.renderChangelog,
         OrchAction.updateChangelogFile,
         OrchAction.commitWorktree "chore(main): release 1.1.0",
         OrchAction.push "releaser-pleaser--branches--main"]
    ∧ ((reconcileReleasePR happyEnv).2.contains OrchAction.upsertPullRequest) = false := by
  refine ⟨by decide, by decide, by decide⟩
